import Mathlib

/-!
Shallow embedding of `src/src/endstone_addons_helper/plugin.py`
(endstone-addonshelper).  File-system state is made explicit: the two
world activation files are `Option (List ActEntry)` (`none` = file
absent), pack directories are lists of folder names, the staging
directory holds the pending archives, and the ledger (`enable.json`)
is the pair of `addons`/`packs` sequences kept in `PluginState`.
-/

namespace AddonsHelper

/-- A JSON entry of `world_behavior_packs.json` / `world_resource_packs.json`.
The `pack_id` field is read with `dict.get`, hence `Option`. -/
structure ActEntry where
  pack_id : Option String
  version : List Int
deriving DecidableEq, Repr

/-- The list stored in an activation file; an absent file reads as `[]`
(mirrors `config = []` when the path does not exist). -/
def tableList (t : Option (List ActEntry)) : List ActEntry :=
  t.getD []

/-- Number of entries of a table carrying the given `pack_id`. -/
def countId (t : Option (List ActEntry)) (pid : String) : Nat :=
  (tableList t).countP (fun e => e.pack_id == some pid)

/-- `any pack.get("pack_id") == pack_uuid for pack in config`. -/
def hasId (t : Option (List ActEntry)) (pid : String) : Bool :=
  (tableList t).any (fun e => e.pack_id == some pid)

/-- Version stored with the first entry matching the given id. -/
def versionOf (t : Option (List ActEntry)) (pid : String) : Option (List Int) :=
  ((tableList t).find? (fun e => e.pack_id == some pid)).map (·.version)

/-- Core of `activate_behavior_pack` / `activate_resource_pack`
(plugin.py lines 513-575): load the existing list (empty when the file
is absent); if no entry with this id exists, append `{pack_id, version}`
and write the file back; otherwise do not write at all. -/
def activate (t : Option (List ActEntry)) (pid : String) (ver : List Int) :
    Option (List ActEntry) :=
  let config := tableList t
  if config.any (fun e => e.pack_id == some pid) then t
  else some (config ++ [{ pack_id := some pid, version := ver }])

/-- Core of `deactivate_behavior_pack` / `deactivate_resource_pack`
(plugin.py lines 307-341): when the file is absent nothing happens at
all; when it exists, keep exactly the entries whose `pack_id` differs
from the given id and write the filtered list back unconditionally. -/
def deactivate (t : Option (List ActEntry)) (pid : String) :
    Option (List ActEntry) :=
  match t with
  | none => none
  | some config => some (config.filter (fun e => !(e.pack_id == some pid)))

/-- `isSurrogateCode n` holds on the UTF-16 surrogate code-point range
that `str.encode('utf-8', errors='ignore')` silently drops. -/
def isSurrogateCode (n : Nat) : Bool :=
  decide (0xD800 ≤ n) && decide (n ≤ 0xDFFF)

/-- `clean_string` (plugin.py lines 151-158): re-encode through UTF-8
with `errors='ignore'`, which drops unpaired surrogate code points and
keeps every Unicode scalar value.  Lean `Char` ranges over scalar
values only, so on representable strings this is the identity, but the
definition keeps the source's filtering shape. -/
def cleanString (s : String) : String :=
  String.mk (s.data.filter (fun c => !(isSurrogateCode c.toNat)))

/-- `manifest["header"]` sub-object as read by `read_manifest`
(plugin.py lines 577-618); every field is fetched with `dict.get`. -/
structure MHeader where
  name : Option String
  description : Option String
  uuid : Option String
  version : Option (List Int)
deriving DecidableEq, Repr

/-- One element of `manifest["modules"]`; only its `type` field is read. -/
structure MModule where
  type : Option String
deriving DecidableEq, Repr

/-- A parsed `manifest.json` document. -/
structure Manifest where
  header : Option MHeader
  modules : Option (List MModule)
deriving DecidableEq, Repr

/-- The empty dict used by `manifest.get('header', \x7b\x7d)`. -/
def MHeader.empty : MHeader :=
  { name := none, description := none, uuid := none, version := none }

/-- Outcome of opening and decoding a `manifest.json` file, mirroring
the control flow of `read_manifest`: a first `utf-8-sig` read that may
fail with a decode error (retried with a BOM-stripping `utf-8` read)
or with any other error (file absent, malformed JSON). -/
inductive ManifestRead where
  | openFail
  | jsonFail
  | decodeFailRetryFail
  | decodeFailRetryOk (m : Manifest)
  | parsed (m : Manifest)
deriving DecidableEq, Repr

/-- The dict `read_manifest` builds from a successfully parsed manifest. -/
structure PackInfo where
  name : String
  description : String
  uuid : String
  version : List Int
  type : String
deriving DecidableEq, Repr

/-- Shared result construction of both success branches of
`read_manifest`: `header.get(...)` defaults and the first declared
module's `type` (defaulting to `"unknown"`, also when `modules` is
the empty list or the key is absent). -/
def packInfoOf (m : Manifest) : PackInfo :=
  let header := m.header.getD MHeader.empty
  let modules := m.modules.getD [{ type := none }]
  let moduleType :=
    match modules with
    | [] => "unknown"
    | m0 :: _ => m0.type.getD "unknown"
  { name := header.name.getD ""
    description := header.description.getD ""
    uuid := header.uuid.getD ""
    version := header.version.getD [1, 0, 0]
    type := moduleType }

/-- `read_manifest` (plugin.py lines 577-618).  `none` models the empty
dict `\x7b\x7d` returned when reading or parsing fails; both exception
handlers return it and no exception escapes. -/
def readManifest : ManifestRead → Option PackInfo
  | .openFail => none
  | .jsonFail => none
  | .decodeFailRetryFail => none
  | .decodeFailRetryOk m => some (packInfoOf m)
  | .parsed m => some (packInfoOf m)

/-- Package kind as classified at the call sites. -/
inductive PackKind where
  | behavior
  | resource
  | unknown
deriving DecidableEq, Repr

/-- The classification applied to `pack_info["type"]` by
`process_mcaddon` / `process_mcpack`: `"data"` selects the behavior
branch, `"resources"` the resource branch, anything else neither. -/
def kindOf (t : String) : PackKind :=
  if t == "data" then .behavior
  else if t == "resources" then .resource
  else .unknown

/-- An `addons` ledger entry (`addon_record` of `process_mcaddon`);
the folder/uuid pairs are optional dict keys. -/
structure AddonRecord where
  name : String
  type : String
  behavior_folder : Option String
  behavior_uuid : Option String
  resource_folder : Option String
  resource_uuid : Option String
deriving DecidableEq, Repr

/-- A `packs` ledger entry (`pack_record` of `process_mcpack`). -/
structure PackRecord where
  name : String
  folder : String
  uuid : String
  type : String
deriving DecidableEq, Repr

/-- One immediate subdirectory of an extracted `.mcaddon` scratch tree. -/
structure SubDir where
  name : String
  hasManifest : Bool
  manifest : ManifestRead
deriving DecidableEq, Repr

/-- A pending `.mcaddon` archive in the staging directory. -/
structure McAddon where
  stem : String
  items : List SubDir
deriving DecidableEq, Repr

/-- A pending `.mcpack` archive in the staging directory. -/
structure McPack where
  stem : String
  hasManifest : Bool
  manifest : ManifestRead
deriving DecidableEq, Repr

/-- The explicit file-system and plugin state the pipeline mutates. -/
structure PluginState where
  stagingAddons : List McAddon
  stagingPacks : List McPack
  addons : List AddonRecord
  packs : List PackRecord
  behaviorTable : Option (List ActEntry)
  resourceTable : Option (List ActEntry)
  behaviorDirs : List String
  resourceDirs : List String
  scratchDirs : List String
  ledgerSaves : Nat
  notices : Nat
  helperDirExists : Bool
deriving DecidableEq, Repr

/-- `mkdir(exist_ok=True)` / `copytree(dirs_exist_ok=True)` effect on a
directory listing. -/
def addDir (l : List String) (d : String) : List String :=
  if d ∈ l then l else l ++ [d]

/-- `activate_behavior_pack` as a state transformer. -/
def activateBehaviorPack (st : PluginState) (pid : String) (ver : List Int) :
    PluginState :=
  { st with behaviorTable := activate st.behaviorTable pid ver }

/-- `activate_resource_pack` as a state transformer. -/
def activateResourcePack (st : PluginState) (pid : String) (ver : List Int) :
    PluginState :=
  { st with resourceTable := activate st.resourceTable pid ver }

/-- `deactivate_behavior_pack` as a state transformer. -/
def deactivateBehaviorPack (st : PluginState) (pid : String) : PluginState :=
  { st with behaviorTable := deactivate st.behaviorTable pid }

/-- `deactivate_resource_pack` as a state transformer. -/
def deactivateResourcePack (st : PluginState) (pid : String) : PluginState :=
  { st with resourceTable := deactivate st.resourceTable pid }

/-- The fresh `\x7b"name": stem, "type": "addon"\x7d` record that
`process_mcaddon` creates before its subdirectory loop. -/
def initAddonRecord (stem : String) : AddonRecord :=
  { name := stem, type := "addon"
    behavior_folder := none, behavior_uuid := none
    resource_folder := none, resource_uuid := none }

/-- Body of the `for item in temp_dir.iterdir()` loop of
`process_mcaddon` (plugin.py lines 394-432): a subdirectory with a
readable manifest is copied into the matching permanent directory,
activated, and recorded on the growing `addon_record`; the behavior
branch also overwrites the record's `name`, while the resource branch
leaves it (the `"name" not in addon_record` guard is always false
because the record is created with a `name` key). -/
def processSubDir (acc : PluginState × AddonRecord) (item : SubDir) :
    PluginState × AddonRecord :=
  if item.hasManifest then
    match readManifest item.manifest with
    | some info =>
      let st := acc.1
      let ar := acc.2
      let packName := cleanString info.name
      if info.type == "data" then
        let st := { st with behaviorDirs := addDir st.behaviorDirs item.name }
        let st := activateBehaviorPack st info.uuid info.version
        (st, { ar with
                behavior_folder := some item.name
                behavior_uuid := some info.uuid
                name := packName })
      else if info.type == "resources" then
        let st := { st with resourceDirs := addDir st.resourceDirs item.name }
        let st := activateResourcePack st info.uuid info.version
        (st, { ar with
                resource_folder := some item.name
                resource_uuid := some info.uuid })
      else acc
    | none => acc
  else acc

/-- `process_mcaddon` (plugin.py lines 368-446): extract to a scratch
directory, fold the subdirectory loop over a fresh
`\x7b"name": stem, "type": "addon"\x7d` record, append the record to the
`addons` ledger sequence, save the ledger, remove the scratch tree and
delete the source archive. -/
def processMcaddon (st0 : PluginState) (arch : McAddon) : PluginState :=
  let st := { st0 with scratchDirs := addDir st0.scratchDirs arch.stem }
  let res := arch.items.foldl processSubDir (st, initAddonRecord arch.stem)
  let st := res.1
  let st := { st with
                addons := st.addons ++ [res.2]
                ledgerSaves := st.ledgerSaves + 1 }
  { st with
      scratchDirs := st.scratchDirs.erase arch.stem
      stagingAddons := st.stagingAddons.erase arch }

/-- `process_mcpack` (plugin.py lines 448-511): extract to a scratch
directory and read the root manifest.  When the manifest file is
absent or unreadable nothing is installed or recorded; when it parses,
a `pack_record` is built, the `"data"` / `"resources"` branches copy
and activate and set its `type`, and the record is appended to the
`packs` ledger sequence and the ledger saved — also when neither
branch ran (the append sits inside `if pack_info:` only).  All paths
then remove the scratch tree and delete the source archive. -/
def processMcpack (st0 : PluginState) (p : McPack) : PluginState :=
  let st := { st0 with scratchDirs := addDir st0.scratchDirs p.stem }
  let st :=
    if p.hasManifest then
      match readManifest p.manifest with
      | some info =>
        let packName := cleanString info.name
        let rec0 : PackRecord :=
          { name := packName, folder := p.stem, uuid := info.uuid, type := "" }
        if info.type == "data" then
          let st := { st with behaviorDirs := addDir st.behaviorDirs p.stem }
          let st := activateBehaviorPack st info.uuid info.version
          { st with
              packs := st.packs ++ [{ rec0 with type := "behavior" }]
              ledgerSaves := st.ledgerSaves + 1 }
        else if info.type == "resources" then
          let st := { st with resourceDirs := addDir st.resourceDirs p.stem }
          let st := activateResourcePack st info.uuid info.version
          { st with
              packs := st.packs ++ [{ rec0 with type := "resource" }]
              ledgerSaves := st.ledgerSaves + 1 }
        else
          { st with
              packs := st.packs ++ [rec0]
              ledgerSaves := st.ledgerSaves + 1 }
      | none => st
    else st
  { st with
      scratchDirs := st.scratchDirs.erase p.stem
      stagingPacks := st.stagingPacks.erase p }

/-- `process_addon_files` (plugin.py lines 343-366): bail out when the
helper directory is missing or no archive of either class is pending;
otherwise process every `.mcaddon`, then every `.mcpack`, and log the
one-time restart-required notice. -/
def processAddonFiles (st : PluginState) : PluginState :=
  if !st.helperDirExists then st
  else
    let mcaddonFiles := st.stagingAddons
    let mcpackFiles := st.stagingPacks
    if mcaddonFiles.isEmpty && mcpackFiles.isEmpty then st
    else
      let st1 := mcaddonFiles.foldl processMcaddon st
      let st2 := mcpackFiles.foldl processMcpack st1
      { st2 with notices := st2.notices + 1 }

/-- Tail of `remove_addon` (plugin.py lines 271-273):
`enabled_packs["addons"].remove(addon)` removes the first entry equal
by value (raising `ValueError`, caught by the surrounding handler,
when absent — the save is then skipped), then the ledger is saved. -/
def removeAddonCommit (st : PluginState) (addon : AddonRecord) : PluginState :=
  if addon ∈ st.addons then
    { st with
        addons := st.addons.erase addon
        ledgerSaves := st.ledgerSaves + 1 }
  else st

/-- Resource block of `remove_addon` (plugin.py lines 262-269): when
`"resource_folder"` is a key, delete that directory if present and
look up `addon["resource_uuid"]` — a missing key raises `KeyError`,
caught by the surrounding handler, aborting the rest of the removal —
then deactivate. -/
def removeAddonResourcePart (st : PluginState) (addon : AddonRecord) :
    PluginState :=
  match addon.resource_folder with
  | none => removeAddonCommit st addon
  | some f =>
    match addon.resource_uuid with
    | none => { st with resourceDirs := st.resourceDirs.erase f }
    | some u =>
      removeAddonCommit
        (deactivateResourcePack
          { st with resourceDirs := st.resourceDirs.erase f } u) addon

/-- `remove_addon` (plugin.py lines 249-276): behavior block, then
resource block, then ledger removal and save; every failure is caught
by the enclosing handler, keeping whatever partial effects happened. -/
def removeAddon (st : PluginState) (addon : AddonRecord) : PluginState :=
  match addon.behavior_folder with
  | none => removeAddonResourcePart st addon
  | some f =>
    match addon.behavior_uuid with
    | none => { st with behaviorDirs := st.behaviorDirs.erase f }
    | some u =>
      removeAddonResourcePart
        (deactivateBehaviorPack
          { st with behaviorDirs := st.behaviorDirs.erase f } u) addon

/-- Tail of `remove_pack` (plugin.py lines 300-302):
`enabled_packs["packs"].remove(pack)` removes the first entry equal by
value (a `ValueError` on an absent entry is caught and skips the
save), then the ledger is saved. -/
def removePackCommit (st : PluginState) (pack : PackRecord) : PluginState :=
  if pack ∈ st.packs then
    { st with
        packs := st.packs.erase pack
        ledgerSaves := st.ledgerSaves + 1 }
  else st

/-- `remove_pack` (plugin.py lines 278-305): only the `"behavior"` and
`"resource"` types delete a directory and deactivate; any other type
goes straight to `enabled_packs["packs"].remove(pack)` and the save. -/
def removePack (st : PluginState) (pack : PackRecord) : PluginState :=
  if pack.type == "behavior" then
    removePackCommit
      (deactivateBehaviorPack
        { st with behaviorDirs := st.behaviorDirs.erase pack.folder }
        pack.uuid) pack
  else if pack.type == "resource" then
    removePackCommit
      (deactivateResourcePack
        { st with resourceDirs := st.resourceDirs.erase pack.folder }
        pack.uuid) pack
  else removePackCommit st pack

/-- ASCII whitespace stripped by Python `int(str)`. -/
def isPySpace (c : Char) : Bool :=
  c == ' ' || c == '\t' || c == '\n' || c == '\r' ||
  c == '\x0b' || c == '\x0c'

/-- ASCII decimal digit. -/
def pyDigit (c : Char) : Bool :=
  decide ('0' ≤ c) && decide (c ≤ '9')

/-- After a leading digit: digits, with single underscores allowed only
between digits (Python integer-literal grouping). -/
def digitsTail : List Char → Bool
  | [] => true
  | '_' :: [] => false
  | '_' :: c :: rest => pyDigit c && digitsTail rest
  | c :: rest => pyDigit c && digitsTail rest

/-- A valid unsigned Python integer-literal body. -/
def pyDigits : List Char → Bool
  | [] => false
  | '_' :: _ => false
  | c :: rest => pyDigit c && digitsTail rest

/-- Numeric value of a digit/underscore body. -/
def digitsVal (cs : List Char) : Nat :=
  (cs.filter (fun c => !(c == '_'))).foldl
    (fun a c => a * 10 + (c.toNat - '0'.toNat)) 0

/-- Python `int(str)` on ASCII input: strip surrounding whitespace, an
optional sign, then a digit body; anything else raises `ValueError`
(modelled as `none`). -/
def pyInt (s : String) : Option Int :=
  let cs := ((s.data.dropWhile isPySpace).reverse.dropWhile isPySpace).reverse
  match cs with
  | '+' :: rest =>
    if pyDigits rest then some (Int.ofNat (digitsVal rest)) else none
  | '-' :: rest =>
    if pyDigits rest then some (-(Int.ofNat (digitsVal rest))) else none
  | rest =>
    if pyDigits rest then some (Int.ofNat (digitsVal rest)) else none

/-- `handle_dele_addon` (plugin.py lines 194-211): no argument or a
non-numeric argument is a user error; the 1-based index is shifted and
checked with `0 <= index < len(addons)` before lookup and removal. -/
def handleDeleAddon (st : PluginState) (args : List String) :
    PluginState × String :=
  match args with
  | [] => (st, "§c请指定要删除的addon序号")
  | a :: _ =>
    match pyInt a with
    | none => (st, "§c请输入有效的数字序号")
    | some n =>
      let index : Int := n - 1
      if 0 ≤ index ∧ index < (st.addons.length : Int) then
        match st.addons[index.toNat]? with
        | some addon => (removeAddon st addon, "§a成功删除addon: " ++ addon.name)
        | none => (st, "§c序号无效")
      else (st, "§c序号无效")

/-- `handle_dele_pack` (plugin.py lines 213-230): same shape as
`handle_dele_addon` over the `packs` sequence. -/
def handleDelePack (st : PluginState) (args : List String) :
    PluginState × String :=
  match args with
  | [] => (st, "§c请指定要删除的pack序号")
  | a :: _ =>
    match pyInt a with
    | none => (st, "§c请输入有效的数字序号")
    | some n =>
      let index : Int := n - 1
      if 0 ≤ index ∧ index < (st.packs.length : Int) then
        match st.packs[index.toNat]? with
        | some pack => (removePack st pack, "§a成功删除pack: " ++ pack.name)
        | none => (st, "§c序号无效")
      else (st, "§c序号无效")

/-! ### Ledger persistence (`clean_json_data`, `save_enable_json`,
`load_enable_json`)

Python strings may carry unpaired surrogate code points, which Lean's
`String` cannot represent, so for the sanitization round-trip the
ledger value is modelled as a JSON tree over raw code-point strings
(`PyStr`). -/

/-- A Python string as a sequence of raw code points. -/
abbrev PyStr := List Nat

/-- `PyStr` form of a Lean string. -/
def pyStrOfString (s : String) : PyStr :=
  s.data.map (·.toNat)

mutual
/-- A JSON value as handled by `clean_json_data` (dict / list / str /
anything else, the last left untouched). -/
inductive JData where
  | dict : JKVs → JData
  | arr : JList → JData
  | str : PyStr → JData
  | num : Int → JData
  | jbool : Bool → JData
  | null : JData

/-- Elements of a JSON array. -/
inductive JList where
  | nil : JList
  | cons : JData → JList → JList

/-- Key/value pairs of a JSON object. -/
inductive JKVs where
  | nil : JKVs
  | cons : PyStr → JData → JKVs → JKVs
end

mutual
/-- `clean_json_data` (plugin.py lines 136-149): rebuild dicts with the
keys untouched and the values cleaned, clean list items, re-encode
strings through UTF-8 with `errors='ignore'` (dropping surrogate code
points), and pass every other value through. -/
def cleanJsonData : JData → JData
  | .dict kvs => .dict (cleanKVs kvs)
  | .arr xs => .arr (cleanJList xs)
  | .str s => .str (s.filter (fun c => !(isSurrogateCode c)))
  | .num n => .num n
  | .jbool b => .jbool b
  | .null => .null

/-- Dict-comprehension part of `clean_json_data`. -/
def cleanKVs : JKVs → JKVs
  | .nil => .nil
  | .cons k v rest => .cons k (cleanJsonData v) (cleanKVs rest)

/-- List-comprehension part of `clean_json_data`. -/
def cleanJList : JList → JList
  | .nil => .nil
  | .cons x rest => .cons (cleanJsonData x) (cleanJList rest)
end

mutual
/-- Every string of the value (keys included) stays inside the
UTF-8-encodable set, i.e. carries no surrogate code point. -/
def encodableData : JData → Bool
  | .dict kvs => encodableKVs kvs
  | .arr xs => encodableJList xs
  | .str s => s.all (fun c => !(isSurrogateCode c))
  | .num _ => true
  | .jbool _ => true
  | .null => true

/-- `encodableData` over object entries. -/
def encodableKVs : JKVs → Bool
  | .nil => true
  | .cons k v rest =>
    k.all (fun c => !(isSurrogateCode c)) && encodableData v && encodableKVs rest

/-- `encodableData` over array elements. -/
def encodableJList : JList → Bool
  | .nil => true
  | .cons x rest => encodableData x && encodableJList rest
end

/-- `save_enable_json` (plugin.py lines 125-134): sanitize with
`clean_json_data`, then `json.dump` the result; the file afterwards
holds exactly the cleaned value (`json.dump` / `json.load` round-trips
JSON-representable values). -/
def saveEnableJson (d : JData) : Option JData :=
  some (cleanJsonData d)

/-- The fresh ledger `\x7b"addons": [], "packs": []\x7d`. -/
def emptyLedgerJson : JData :=
  .dict (.cons (pyStrOfString "addons") (.arr .nil)
    (.cons (pyStrOfString "packs") (.arr .nil) .nil))

/-- `load_enable_json` (plugin.py lines 113-123): parse the saved file
when it exists, fall back to the empty ledger when it is absent or
unparsable. -/
def loadEnableJson : Option JData → JData
  | some d => d
  | none => emptyLedgerJson

/-! ### Helper lemmas -/

theorem hasId_iff_countId_pos (t : Option (List ActEntry)) (pid : String) :
    hasId t pid = true ↔ 0 < countId t pid := by
  simp [hasId, countId, List.any_eq_true, List.countP_pos_iff]

theorem countId_eq_zero_of_hasId_false {t : Option (List ActEntry)}
    {pid : String} (h : hasId t pid = false) : countId t pid = 0 := by
  simp only [hasId, List.any_eq_false] at h
  simp only [countId, List.countP_eq_zero]
  exact h

theorem activate_of_hasId {t : Option (List ActEntry)} {pid : String}
    (v : List Int) (h : hasId t pid = true) : activate t pid v = t := by
  unfold hasId at h
  simp [activate, h]

theorem activate_of_not_hasId {t : Option (List ActEntry)} {pid : String}
    (v : List Int) (h : hasId t pid = false) :
    activate t pid v = some (tableList t ++ [{ pack_id := some pid, version := v }]) := by
  unfold hasId at h
  simp [activate, h]

theorem hasId_activate_self (t : Option (List ActEntry)) (pid : String)
    (v : List Int) : hasId (activate t pid v) pid = true := by
  by_cases h : hasId t pid = true
  · rw [activate_of_hasId v h]; exact h
  · rw [activate_of_not_hasId v (Bool.of_not_eq_true h)]
    simp [hasId, tableList]

theorem countId_activate {t : Option (List ActEntry)} {pid : String}
    (v : List Int) (h : hasId t pid = false) :
    countId (activate t pid v) pid = countId t pid + 1 := by
  rw [activate_of_not_hasId v h]
  simp [countId, tableList, List.countP_append, List.countP_cons]

theorem countId_activate_twice {t : Option (List ActEntry)} {pid : String}
    (v v' : List Int) (h : countId t pid ≤ 1) :
    countId (activate (activate t pid v) pid v') pid = 1 := by
  cases hb : hasId t pid
  · have h0 := countId_eq_zero_of_hasId_false hb
    rw [activate_of_hasId v' (hasId_activate_self t pid v)]
    rw [countId_activate v hb, h0]
  · rw [activate_of_hasId v hb, activate_of_hasId v' hb]
    have := (hasId_iff_countId_pos t pid).mp hb
    omega

theorem versionOf_activate_of_countId_zero {t : Option (List ActEntry)}
    {pid : String} (v : List Int) (h : countId t pid = 0) :
    versionOf (activate t pid v) pid = some v := by
  have hb : hasId t pid = false := by
    cases hx : hasId t pid
    · rfl
    · rw [hasId_iff_countId_pos] at hx; omega
  rw [activate_of_not_hasId v hb]
  unfold versionOf tableList
  simp only [Option.getD_some]
  rw [List.find?_append]
  have hn : (tableList t).find? (fun e => e.pack_id == some pid) = none := by
    rw [List.find?_eq_none]
    intro x hx
    simp only [hasId, List.any_eq_false] at hb
    exact hb x hx
  unfold tableList at hn
  rw [hn]
  simp [List.find?]

theorem versionOf_activate_twice {t : Option (List ActEntry)} {pid : String}
    (v v' : List Int) (h : countId t pid = 0) :
    versionOf (activate (activate t pid v) pid v') pid = some v := by
  rw [activate_of_hasId v' (hasId_activate_self t pid v)]
  exact versionOf_activate_of_countId_zero v h

theorem deactivate_some_spec (l : List ActEntry) (pid : String) :
    ∃ l', deactivate (some l) pid = some l'
      ∧ l'.Sublist l
      ∧ (∀ e, e ∈ l' ↔ e ∈ l ∧ e.pack_id ≠ some pid)
      ∧ (hasId (some l) pid = false → l' = l) := by
  refine ⟨l.filter (fun e => !(e.pack_id == some pid)), rfl,
    List.filter_sublist l, ?_, ?_⟩
  · intro e
    simp [List.mem_filter]
  · intro h
    simp only [hasId, tableList, Option.getD_some, List.any_eq_false] at h
    rw [List.filter_eq_self]
    intro a ha
    simpa using h a ha

/-! ### Claim theorems -/

/-- Claim C1: for each world activation table (behavior or resource),
activating the same id twice leaves exactly one entry with that id
(given the documented id-uniqueness invariant of the table), a repeat
activation of an already-present id is a no-op — in particular a
different version does not change the stored version — and after a
double activation the stored version is the first one supplied. -/
theorem activateIdempotentById (st : PluginState) (pid : String)
    (v v' : List Int) :
    (countId st.behaviorTable pid ≤ 1 →
      countId (activateBehaviorPack (activateBehaviorPack st pid v) pid v').behaviorTable pid = 1)
    ∧ (hasId st.behaviorTable pid = true → activateBehaviorPack st pid v' = st)
    ∧ (countId st.behaviorTable pid = 0 →
      versionOf (activateBehaviorPack (activateBehaviorPack st pid v) pid v').behaviorTable pid = some v)
    ∧ (countId st.resourceTable pid ≤ 1 →
      countId (activateResourcePack (activateResourcePack st pid v) pid v').resourceTable pid = 1)
    ∧ (hasId st.resourceTable pid = true → activateResourcePack st pid v' = st)
    ∧ (countId st.resourceTable pid = 0 →
      versionOf (activateResourcePack (activateResourcePack st pid v) pid v').resourceTable pid = some v) := by
  refine ⟨?_, ?_, ?_, ?_, ?_, ?_⟩
  · intro h
    exact countId_activate_twice v v' h
  · intro h
    simp [activateBehaviorPack, activate_of_hasId v' h]
  · intro h
    exact versionOf_activate_twice v v' h
  · intro h
    exact countId_activate_twice v v' h
  · intro h
    simp [activateResourcePack, activate_of_hasId v' h]
  · intro h
    exact versionOf_activate_twice v v' h

/-- Concrete state exercising claim C1. -/
def c1State : PluginState :=
  { stagingAddons := [], stagingPacks := [], addons := [], packs := []
    behaviorTable := some [{ pack_id := some "a", version := [1, 0, 0] }]
    resourceTable := none
    behaviorDirs := [], resourceDirs := [], scratchDirs := []
    ledgerSaves := 0, notices := 0, helperDirExists := true }

/-- Witness for claim C1 at a concrete table. -/
theorem activateIdempotentByIdWitness :
    countId (activateBehaviorPack (activateBehaviorPack c1State "a" [2, 0, 0]) "a" [3, 0, 0]).behaviorTable "a" = 1
    ∧ activateBehaviorPack c1State "a" [3, 0, 0] = c1State
    ∧ versionOf (activateResourcePack (activateResourcePack c1State "a" [2, 0, 0]) "a" [3, 0, 0]).resourceTable "a" = some [2, 0, 0] :=
  ⟨(activateIdempotentById c1State "a" [2, 0, 0] [3, 0, 0]).1 (by decide),
   (activateIdempotentById c1State "a" [2, 0, 0] [3, 0, 0]).2.1 (by decide),
   (activateIdempotentById c1State "a" [2, 0, 0] [3, 0, 0]).2.2.2.2.2 (by decide)⟩

/-- Claim C7: for each activation table and id, deactivation is a no-op
when the file is absent; when the file exists it keeps exactly the
entries whose id differs, preserving their order, persists the result
unconditionally (the file stays present and syntactically valid), and
when no entry matched the content is unchanged. -/
theorem deactivateFilterSpec (st : PluginState) (pid : String) :
    (st.behaviorTable = none → deactivateBehaviorPack st pid = st)
    ∧ (∀ l, st.behaviorTable = some l →
        ∃ l', (deactivateBehaviorPack st pid).behaviorTable = some l'
          ∧ l'.Sublist l
          ∧ (∀ e, e ∈ l' ↔ e ∈ l ∧ e.pack_id ≠ some pid)
          ∧ (hasId st.behaviorTable pid = false → l' = l))
    ∧ (st.resourceTable = none → deactivateResourcePack st pid = st)
    ∧ (∀ l, st.resourceTable = some l →
        ∃ l', (deactivateResourcePack st pid).resourceTable = some l'
          ∧ l'.Sublist l
          ∧ (∀ e, e ∈ l' ↔ e ∈ l ∧ e.pack_id ≠ some pid)
          ∧ (hasId st.resourceTable pid = false → l' = l)) := by
  refine ⟨?_, ?_, ?_, ?_⟩
  · intro h
    have hd : deactivate st.behaviorTable pid = st.behaviorTable := by rw [h]; rfl
    show { st with behaviorTable := deactivate st.behaviorTable pid } = st
    rw [hd]
  · intro l h
    obtain ⟨l', hd, hsub, hmem, hid⟩ := deactivate_some_spec l pid
    exact ⟨l', by simp [deactivateBehaviorPack, h, hd], hsub, hmem, by rw [h]; exact hid⟩
  · intro h
    have hd : deactivate st.resourceTable pid = st.resourceTable := by rw [h]; rfl
    show { st with resourceTable := deactivate st.resourceTable pid } = st
    rw [hd]
  · intro l h
    obtain ⟨l', hd, hsub, hmem, hid⟩ := deactivate_some_spec l pid
    exact ⟨l', by simp [deactivateResourcePack, h, hd], hsub, hmem, by rw [h]; exact hid⟩

/-- Witness for claim C7 at a concrete table. -/
theorem deactivateFilterSpecWitness :
    deactivateResourcePack c1State "a" = c1State
    ∧ ∃ l', (deactivateBehaviorPack c1State "b").behaviorTable = some l'
        ∧ (hasId c1State.behaviorTable "b" = false → l' = [{ pack_id := some "a", version := [1, 0, 0] }]) :=
  ⟨(deactivateFilterSpec c1State "a").2.2.1 rfl,
   by
    obtain ⟨l', hd, _, _, hid⟩ :=
      (deactivateFilterSpec c1State "b").2.1
        [{ pack_id := some "a", version := [1, 0, 0] }] rfl
    exact ⟨l', hd, hid⟩⟩

theorem processSubDir_frame (acc : PluginState × AddonRecord) (item : SubDir) :
    (processSubDir acc item).1.addons = acc.1.addons
    ∧ (processSubDir acc item).1.packs = acc.1.packs
    ∧ (processSubDir acc item).1.notices = acc.1.notices
    ∧ (processSubDir acc item).1.ledgerSaves = acc.1.ledgerSaves
    ∧ (processSubDir acc item).1.scratchDirs = acc.1.scratchDirs
    ∧ (processSubDir acc item).1.stagingAddons = acc.1.stagingAddons
    ∧ (processSubDir acc item).1.stagingPacks = acc.1.stagingPacks := by
  unfold processSubDir activateBehaviorPack activateResourcePack
  repeat' split
  all_goals simp

theorem foldl_processSubDir_frame (items : List SubDir)
    (acc : PluginState × AddonRecord) :
    (items.foldl processSubDir acc).1.addons = acc.1.addons
    ∧ (items.foldl processSubDir acc).1.packs = acc.1.packs
    ∧ (items.foldl processSubDir acc).1.notices = acc.1.notices
    ∧ (items.foldl processSubDir acc).1.ledgerSaves = acc.1.ledgerSaves
    ∧ (items.foldl processSubDir acc).1.scratchDirs = acc.1.scratchDirs
    ∧ (items.foldl processSubDir acc).1.stagingAddons = acc.1.stagingAddons
    ∧ (items.foldl processSubDir acc).1.stagingPacks = acc.1.stagingPacks := by
  induction items generalizing acc with
  | nil => exact ⟨rfl, rfl, rfl, rfl, rfl, rfl, rfl⟩
  | cons i rest ih =>
    simp only [List.foldl_cons]
    have h := processSubDir_frame acc i
    have h2 := ih (processSubDir acc i)
    exact ⟨h2.1.trans h.1, h2.2.1.trans h.2.1, h2.2.2.1.trans h.2.2.1,
      h2.2.2.2.1.trans h.2.2.2.1, h2.2.2.2.2.1.trans h.2.2.2.2.1,
      h2.2.2.2.2.2.1.trans h.2.2.2.2.2.1, h2.2.2.2.2.2.2.trans h.2.2.2.2.2.2⟩

theorem processMcaddon_notices (st : PluginState) (arch : McAddon) :
    (processMcaddon st arch).notices = st.notices := by
  unfold processMcaddon
  exact (foldl_processSubDir_frame arch.items _).2.2.1

theorem processMcpack_notices (st : PluginState) (p : McPack) :
    (processMcpack st p).notices = st.notices := by
  unfold processMcpack activateBehaviorPack activateResourcePack
  repeat' split
  all_goals rfl

theorem foldl_processMcaddon_notices (archs : List McAddon) (st : PluginState) :
    (archs.foldl processMcaddon st).notices = st.notices := by
  induction archs generalizing st with
  | nil => rfl
  | cons a rest ih =>
    simp only [List.foldl_cons]
    exact (ih (processMcaddon st a)).trans (processMcaddon_notices st a)

theorem foldl_processMcpack_notices (ps : List McPack) (st : PluginState) :
    (ps.foldl processMcpack st).notices = st.notices := by
  induction ps generalizing st with
  | nil => rfl
  | cons p rest ih =>
    simp only [List.foldl_cons]
    exact (ih (processMcpack st p)).trans (processMcpack_notices st p)

/-- Claim C8: the manifest reader never lets a failure escape: an open
failure, malformed JSON, or a decode failure whose retry also fails
all yield the empty result, and every input yields either the empty
result or a populated descriptor.  On success a missing version field
defaults to `[1, 0, 0]` (whether the header or just its `version` key
is absent) and a missing first-module `type` defaults to `"unknown"`;
the call sites classify `"data"` as behavior, `"resources"` as
resource, and anything else as unknown. -/
theorem readManifestSpec :
    (∀ r : ManifestRead,
      r = .openFail ∨ r = .jsonFail ∨ r = .decodeFailRetryFail →
        readManifest r = none)
    ∧ (∀ r : ManifestRead, readManifest r = none ∨ ∃ i, readManifest r = some i)
    ∧ (∀ hdr : MHeader, ∀ mods, hdr.version = none →
        (packInfoOf { header := some hdr, modules := mods }).version = [1, 0, 0])
    ∧ (∀ mods, (packInfoOf { header := none, modules := mods }).version = [1, 0, 0])
    ∧ (∀ hdr, (packInfoOf { header := hdr, modules := none }).type = "unknown")
    ∧ (∀ hdr, (packInfoOf { header := hdr, modules := some [] }).type = "unknown")
    ∧ (∀ m : Manifest, ∀ m0 mrest, m.modules = some (m0 :: mrest) →
        m0.type = none → (packInfoOf m).type = "unknown")
    ∧ (∀ m : Manifest, ∀ m0 mrest t, m.modules = some (m0 :: mrest) →
        m0.type = some t → (packInfoOf m).type = t)
    ∧ kindOf "unknown" = .unknown
    ∧ kindOf "data" = .behavior
    ∧ kindOf "resources" = .resource
    ∧ (∀ s : String, s ≠ "data" → s ≠ "resources" → kindOf s = .unknown) := by
  refine ⟨?_, ?_, ?_, ?_, ?_, ?_, ?_, ?_, rfl, rfl, rfl, ?_⟩
  · rintro r (rfl | rfl | rfl) <;> rfl
  · intro r
    cases r with
    | openFail => exact Or.inl rfl
    | jsonFail => exact Or.inl rfl
    | decodeFailRetryFail => exact Or.inl rfl
    | decodeFailRetryOk m => exact Or.inr ⟨packInfoOf m, rfl⟩
    | parsed m => exact Or.inr ⟨packInfoOf m, rfl⟩
  · intro hdr mods h
    simp [packInfoOf, h]
  · intro mods
    simp [packInfoOf, MHeader.empty]
  · intro hdr
    simp [packInfoOf]
  · intro hdr
    simp [packInfoOf]
  · intro m m0 mrest h h0
    simp [packInfoOf, h, h0]
  · intro m m0 mrest t h h0
    simp [packInfoOf, h, h0]
  · intro s h1 h2
    simp [kindOf, h1, h2]

/-- A concrete header with no version field, for the C8 witness. -/
def c8Header : MHeader :=
  { name := some "A", description := none, uuid := some "u", version := none }

/-- Witness for claim C8 at concrete inputs. -/
theorem readManifestSpecWitness :
    readManifest .jsonFail = none
    ∧ (packInfoOf { header := some c8Header, modules := none }).version = [1, 0, 0]
    ∧ kindOf "scripts" = .unknown :=
  ⟨readManifestSpec.1 .jsonFail (Or.inr (Or.inl rfl)),
   readManifestSpec.2.2.1 c8Header none rfl,
   readManifestSpec.2.2.2.2.2.2.2.2.2.2.2 "scripts" (by decide) (by decide)⟩

/-- Claim C9: a run of the installer pipeline over an empty staging
directory is the identity on the whole state (no file changes, no
ledger write, no restart notice); when at least one archive of either
class is pending, the restart notice is emitted exactly once. -/
theorem pipelineEmptyStagingFrame (st : PluginState) :
    (st.stagingAddons = [] → st.stagingPacks = [] → processAddonFiles st = st)
    ∧ (st.helperDirExists = true →
        (st.stagingAddons ≠ [] ∨ st.stagingPacks ≠ []) →
        (processAddonFiles st).notices = st.notices + 1) := by
  constructor
  · intro h1 h2
    unfold processAddonFiles
    cases hx : st.helperDirExists <;> simp [h1, h2]
  · intro hdir hne
    have hne' : ¬(st.stagingAddons.isEmpty && st.stagingPacks.isEmpty) = true := by
      rcases hne with h | h <;> simp [List.isEmpty_iff, h]
    unfold processAddonFiles
    rw [hdir]
    simp only [Bool.not_true, Bool.false_eq_true, if_false, if_neg hne']
    show (st.stagingPacks.foldl processMcpack
      (st.stagingAddons.foldl processMcaddon st)).notices + 1 = st.notices + 1
    rw [foldl_processMcpack_notices, foldl_processMcaddon_notices]

/-- Concrete state with one pending archive, for the C9 witness. -/
def c9State : PluginState :=
  { stagingAddons := [], stagingPacks := [{ stem := "P", hasManifest := false, manifest := .openFail }]
    addons := [], packs := [], behaviorTable := none, resourceTable := none
    behaviorDirs := [], resourceDirs := [], scratchDirs := []
    ledgerSaves := 0, notices := 0, helperDirExists := true }

/-- Witness for claim C9: empty staging is the identity, a pending
archive produces exactly one notice. -/
theorem pipelineEmptyStagingFrameWitness :
    processAddonFiles c1State = c1State
    ∧ (processAddonFiles c9State).notices = c9State.notices + 1 :=
  ⟨(pipelineEmptyStagingFrame c1State).1 rfl rfl,
   (pipelineEmptyStagingFrame c9State).2 rfl (Or.inr (by decide))⟩

/-- Claim C10: removing a standalone-pack ledger entry whose `type` is
neither `"behavior"` nor `"resource"` deletes no pack directory and
touches neither activation table; it only removes the entry from the
`packs` sequence and saves the ledger. -/
theorem removePackUnknownTypeFrame (st : PluginState) (pack : PackRecord)
    (h1 : pack.type ≠ "behavior") (h2 : pack.type ≠ "resource")
    (hmem : pack ∈ st.packs) :
    removePack st pack =
      { st with packs := st.packs.erase pack,
                ledgerSaves := st.ledgerSaves + 1 } := by
  unfold removePack removePackCommit
  simp [h1, h2, hmem]

/-- Concrete state holding one unclassifiable pack entry, for C10. -/
def c10State : PluginState :=
  { stagingAddons := [], stagingPacks := [], addons := []
    packs := [{ name := "N", folder := "F", uuid := "u", type := "" }]
    behaviorTable := some [{ pack_id := some "u", version := [1, 0, 0] }]
    resourceTable := none
    behaviorDirs := ["F"], resourceDirs := [], scratchDirs := []
    ledgerSaves := 0, notices := 0, helperDirExists := true }

/-- Witness for claim C10 at a concrete entry. -/
theorem removePackUnknownTypeFrameWitness :
    removePack c10State { name := "N", folder := "F", uuid := "u", type := "" } =
      { c10State with packs := [], ledgerSaves := 1 } := by
  have h := removePackUnknownTypeFrame c10State
    { name := "N", folder := "F", uuid := "u", type := "" }
    (by decide) (by decide) (by decide)
  rw [h]
  rfl

/-- The manifest header of the C4 scenario. -/
def c4Header : MHeader :=
  { name := some "Foo", description := none
    uuid := some "11111111-1111-1111-1111-111111111111"
    version := some [1, 2, 0] }

/-- The manifest of the C4 scenario: a behavior module, the claimed
uuid and version, and the pack's display name. -/
def c4Manifest : Manifest :=
  { header := some c4Header, modules := some [{ type := some "data" }] }

/-- `Foo.mcpack` of the C4 scenario. -/
def c4Pack : McPack :=
  { stem := "Foo", hasManifest := true, manifest := .parsed c4Manifest }

/-- Fresh server state with `Foo.mcpack` pending in staging. -/
def c4State : PluginState :=
  { stagingAddons := [], stagingPacks := [c4Pack], addons := [], packs := []
    behaviorTable := none, resourceTable := none
    behaviorDirs := [], resourceDirs := [], scratchDirs := []
    ledgerSaves := 0, notices := 0, helperDirExists := true }

/-- Claim C4: after one installer-pipeline run on a staging directory
holding `Foo.mcpack` whose manifest declares module type `"data"`,
uuid `11111111-1111-1111-1111-111111111111` and version `[1, 2, 0]`
(and display name `Foo`), the behavior-packs directory contains a
`Foo` subdirectory, the world behavior-activation file holds exactly
one entry with that pack id and version, the ledger's `packs` sequence
holds exactly `\x7bname: Foo, folder: Foo, uuid: ..., type: behavior\x7d`,
and `Foo.mcpack` is gone from staging. -/
theorem mcpackFooScenario :
    (processAddonFiles c4State).behaviorDirs = ["Foo"]
    ∧ (processAddonFiles c4State).behaviorTable =
        some [{ pack_id := some "11111111-1111-1111-1111-111111111111",
                version := [1, 2, 0] }]
    ∧ (processAddonFiles c4State).packs =
        [{ name := "Foo", folder := "Foo",
           uuid := "11111111-1111-1111-1111-111111111111", type := "behavior" }]
    ∧ (processAddonFiles c4State).stagingPacks = [] := by
  refine ⟨?_, ?_, ?_, ?_⟩ <;> rfl

theorem addDir_erase {l : List String} {d : String} (h : d ∉ l) :
    (addDir l d).erase d = l := by
  unfold addDir
  rw [if_neg h, List.erase_append_right _ h, List.erase_cons_head, List.append_nil]

/-- Header of the C3 counterexample manifest. -/
def c3Header : MHeader :=
  { name := some "X", description := none, uuid := some "u3",
    version := some [1, 0, 0] }

/-- A manifest that parses but classifies as neither behavior nor
resource (module type `"scripts"`). -/
def c3Manifest : Manifest :=
  { header := some c3Header, modules := some [{ type := some "scripts" }] }

/-- `X.mcpack` carrying the unclassifiable manifest. -/
def c3Pack : McPack :=
  { stem := "X", hasManifest := true, manifest := .parsed c3Manifest }

/-- Fresh server state for the C3 counterexample. -/
def c3State : PluginState :=
  { stagingAddons := [], stagingPacks := [c3Pack], addons := [], packs := []
    behaviorTable := none, resourceTable := none
    behaviorDirs := [], resourceDirs := [], scratchDirs := []
    ledgerSaves := 0, notices := 0, helperDirExists := true }

/-- Counterexample to claim C3: processing a standalone-pack archive
whose root descriptor parses but is unclassifiable DOES update the
ledger — a `packs` entry with empty `type` is appended and the ledger
saved, contradicting "does not update the ledger". -/
theorem mcpackUnclassifiableCounterexample :
    (processMcpack c3State c3Pack).packs =
      [{ name := "X", folder := "X", uuid := "u3", type := "" }]
    ∧ (processMcpack c3State c3Pack).ledgerSaves = c3State.ledgerSaves + 1
    ∧ (processMcpack c3State c3Pack).packs ≠ c3State.packs := by
  refine ⟨rfl, rfl, by decide⟩

/-- Claim C3 (amended): an absent or unreadable root descriptor causes
no installation step and no ledger change, only scratch cleanup and
archive deletion; a descriptor that parses but is unclassifiable still
performs no copy and no activation and still cleans up, but appends a
`packs` ledger entry with empty `type` and saves the ledger. -/
theorem mcpackUnclassifiableAmended (st : PluginState) (p : McPack)
    (info : PackInfo) (hscratch : p.stem ∉ st.scratchDirs) :
    (p.hasManifest = false →
      processMcpack st p = { st with stagingPacks := st.stagingPacks.erase p })
    ∧ (readManifest p.manifest = none →
      processMcpack st p = { st with stagingPacks := st.stagingPacks.erase p })
    ∧ (p.hasManifest = true → readManifest p.manifest = some info →
        info.type ≠ "data" → info.type ≠ "resources" →
        processMcpack st p =
          { st with
              packs := st.packs ++
                [{ name := cleanString info.name, folder := p.stem,
                   uuid := info.uuid, type := "" }]
              ledgerSaves := st.ledgerSaves + 1
              stagingPacks := st.stagingPacks.erase p }) := by
  refine ⟨?_, ?_, ?_⟩
  · intro h
    unfold processMcpack
    rw [h]
    simp only [Bool.false_eq_true, if_false]
    rw [addDir_erase hscratch]
  · intro h
    unfold processMcpack
    rw [h]
    cases hm : p.hasManifest <;>
      simp only [Bool.false_eq_true, if_false, if_true] <;>
      rw [addDir_erase hscratch]
  · intro hm hr h1 h2
    unfold processMcpack
    rw [hm, hr]
    simp only [if_true]
    have e1 : (info.type == "data") = false := by simp [h1]
    have e2 : (info.type == "resources") = false := by simp [h2]
    rw [e1, e2]
    simp only [Bool.false_eq_true, if_false]
    rw [addDir_erase hscratch]

/-- Witness for the amended C3 at concrete inputs: an unreadable
descriptor leaves the ledger alone; the unclassifiable one appends the
empty-type entry. -/
theorem mcpackUnclassifiableAmendedWitness :
    processMcpack c9State { stem := "P", hasManifest := false, manifest := .openFail } =
      { c9State with stagingPacks := [] }
    ∧ processMcpack c3State c3Pack =
      { c3State with
          packs := [{ name := "X", folder := "X", uuid := "u3", type := "" }]
          ledgerSaves := 1
          stagingPacks := [] } := by
  constructor
  · have h := (mcpackUnclassifiableAmended c9State
      { stem := "P", hasManifest := false, manifest := .openFail }
      { name := "", description := "", uuid := "", version := [], type := "" }
      (by decide)).1 rfl
    rw [h]
    rfl
  · have h := (mcpackUnclassifiableAmended c3State c3Pack
      (packInfoOf c3Manifest) (by decide)).2.2 rfl rfl (by decide) (by decide)
    rw [h]
    rfl

/-- The bundle-entry invariant of the data model: a folder reference is
recorded exactly when the matching id is. -/
def addonWF (a : AddonRecord) : Prop :=
  (a.behavior_folder.isSome ↔ a.behavior_uuid.isSome)
  ∧ (a.resource_folder.isSome ↔ a.resource_uuid.isSome)

instance addonWFDecidable (a : AddonRecord) : Decidable (addonWF a) := by
  unfold addonWF
  infer_instance

theorem processSubDir_wf (acc : PluginState × AddonRecord) (item : SubDir)
    (h : addonWF acc.2) : addonWF (processSubDir acc item).2 := by
  unfold processSubDir
  repeat' split
  all_goals simp_all [addonWF]

theorem foldl_processSubDir_wf (items : List SubDir)
    (acc : PluginState × AddonRecord) (h : addonWF acc.2) :
    addonWF ((items.foldl processSubDir acc).2) := by
  induction items generalizing acc with
  | nil => exact h
  | cons i rest ih => exact ih _ (processSubDir_wf acc i h)

theorem processMcaddon_addons (st : PluginState) (arch : McAddon) :
    ∃ ar, addonWF ar ∧ (processMcaddon st arch).addons = st.addons ++ [ar] := by
  refine ⟨(List.foldl processSubDir
      ({ st with scratchDirs := addDir st.scratchDirs arch.stem },
        initAddonRecord arch.stem) arch.items).2, ?_, ?_⟩
  · exact foldl_processSubDir_wf _ _ (by simp [addonWF, initAddonRecord])
  · show (List.foldl processSubDir
        ({ st with scratchDirs := addDir st.scratchDirs arch.stem },
          initAddonRecord arch.stem) arch.items).1.addons ++ _ = _
    rw [(foldl_processSubDir_frame arch.items _).1]

theorem processMcpack_addons (st : PluginState) (p : McPack) :
    (processMcpack st p).addons = st.addons := by
  unfold processMcpack activateBehaviorPack activateResourcePack
  repeat' split
  all_goals rfl

theorem removeAddonCommit_addons_sub {st : PluginState} {a x : AddonRecord}
    (hx : x ∈ (removeAddonCommit st a).addons) : x ∈ st.addons := by
  unfold removeAddonCommit at hx
  split at hx
  · exact List.mem_of_mem_erase hx
  · exact hx

theorem removeAddonResourcePart_addons_sub {st : PluginState}
    {a x : AddonRecord}
    (hx : x ∈ (removeAddonResourcePart st a).addons) : x ∈ st.addons := by
  unfold removeAddonResourcePart at hx
  split at hx
  · exact removeAddonCommit_addons_sub hx
  · split at hx
    · exact hx
    · have h2 := removeAddonCommit_addons_sub hx
      exact h2

theorem removeAddon_addons_sub {st : PluginState} {a x : AddonRecord}
    (hx : x ∈ (removeAddon st a).addons) : x ∈ st.addons := by
  unfold removeAddon at hx
  split at hx
  · exact removeAddonResourcePart_addons_sub hx
  · split at hx
    · exact hx
    · have h2 := removeAddonResourcePart_addons_sub hx
      exact h2

theorem removePack_addons (st : PluginState) (pk : PackRecord) :
    (removePack st pk).addons = st.addons := by
  unfold removePack removePackCommit deactivateBehaviorPack deactivateResourcePack
  repeat' split
  all_goals rfl

/-- Claim C6: every bundle ledger entry the installer pipeline produces
records `behavior_folder` exactly when it records `behavior_uuid` (and
symmetrically for resource), and each install and removal operation
preserves this invariant across the whole `addons` sequence. -/
theorem bundleFolderUuidInvariant (st : PluginState) (arch : McAddon)
    (p : McPack) (a : AddonRecord) (pk : PackRecord)
    (h : ∀ x ∈ st.addons, addonWF x) :
    (∀ x ∈ (processMcaddon st arch).addons, addonWF x)
    ∧ (∀ x ∈ (processMcpack st p).addons, addonWF x)
    ∧ (∀ x ∈ (removeAddon st a).addons, addonWF x)
    ∧ (∀ x ∈ (removePack st pk).addons, addonWF x) := by
  refine ⟨?_, ?_, ?_, ?_⟩
  · obtain ⟨ar, har, heq⟩ := processMcaddon_addons st arch
    rw [heq]
    intro x hx
    rcases List.mem_append.mp hx with hx | hx
    · exact h x hx
    · rw [List.mem_singleton.mp hx]
      exact har
  · rw [processMcpack_addons st p]
    exact h
  · intro x hx
    exact h x (removeAddon_addons_sub hx)
  · rw [removePack_addons st pk]
    exact h

/-- Header of the C6 witness manifest. -/
def c6Header : MHeader :=
  { name := some "B", description := none, uuid := some "bu",
    version := some [1, 0, 0] }

/-- A behavior-module manifest for the C6 witness bundle. -/
def c6Manifest : Manifest :=
  { header := some c6Header, modules := some [{ type := some "data" }] }

/-- A one-subdirectory bundle archive for the C6 witness. -/
def c6Arch : McAddon :=
  { stem := "BArch"
    items := [{ name := "bd", hasManifest := true,
                manifest := .parsed c6Manifest }] }

/-- A pre-existing well-formed bundle entry for the C6 witness. -/
def c6OldRecord : AddonRecord :=
  { name := "A0", type := "addon"
    behavior_folder := some "f0", behavior_uuid := some "u0"
    resource_folder := none, resource_uuid := none }

/-- The bundle entry the pipeline appends for the C6 witness archive. -/
def c6NewRecord : AddonRecord :=
  { name := "B", type := "addon"
    behavior_folder := some "bd", behavior_uuid := some "bu"
    resource_folder := none, resource_uuid := none }

/-- State with one well-formed bundle entry, for the C6 witness. -/
def c6State : PluginState :=
  { stagingAddons := [c6Arch], stagingPacks := []
    addons := [c6OldRecord]
    packs := [], behaviorTable := none, resourceTable := none
    behaviorDirs := [], resourceDirs := [], scratchDirs := []
    ledgerSaves := 0, notices := 0, helperDirExists := true }

/-- Witness for claim C6: the entry the pipeline appends for the
witness bundle satisfies the invariant. -/
theorem bundleFolderUuidInvariantWitness : addonWF c6NewRecord := by
  have hmem : c6NewRecord ∈ (processMcaddon c6State c6Arch).addons := by
    have h : (processMcaddon c6State c6Arch).addons =
        [c6OldRecord, c6NewRecord] := rfl
    rw [h]
    simp
  exact (bundleFolderUuidInvariant c6State c6Arch c3Pack (initAddonRecord "z")
    { name := "N", folder := "F", uuid := "u", type := "" }
    (by decide)).1 _ hmem

mutual
theorem cleanJsonData_encodable_id :
    ∀ d : JData, encodableData d = true → cleanJsonData d = d
  | .dict kvs, h => by
    rw [cleanJsonData, cleanKVs_encodable_id kvs (by simpa [encodableData] using h)]
  | .arr xs, h => by
    rw [cleanJsonData, cleanJList_encodable_id xs (by simpa [encodableData] using h)]
  | .str s, h => by
    rw [cleanJsonData]
    congr 1
    rw [List.filter_eq_self]
    intro c hc
    simp only [encodableData, List.all_eq_true] at h
    simpa using h c hc
  | .num n, _ => by rw [cleanJsonData]
  | .jbool b, _ => by rw [cleanJsonData]
  | .null, _ => by rw [cleanJsonData]

theorem cleanKVs_encodable_id :
    ∀ k : JKVs, encodableKVs k = true → cleanKVs k = k
  | .nil, _ => by rw [cleanKVs]
  | .cons key v rest, h => by
    have h' : encodableData v = true ∧ encodableKVs rest = true := by
      simp only [encodableKVs, Bool.and_eq_true] at h
      exact ⟨h.1.2, h.2⟩
    rw [cleanKVs, cleanJsonData_encodable_id v h'.1,
      cleanKVs_encodable_id rest h'.2]

theorem cleanJList_encodable_id :
    ∀ l : JList, encodableJList l = true → cleanJList l = l
  | .nil, _ => by rw [cleanJList]
  | .cons x rest, h => by
    have h' : encodableData x = true ∧ encodableJList rest = true := by
      simpa only [encodableJList, Bool.and_eq_true] using h
    rw [cleanJList, cleanJsonData_encodable_id x h'.1,
      cleanJList_encodable_id rest h'.2]
end

/-- Claim C5: saving a ledger value and loading it back yields the
value with only its strings sanitized, where sanitization removes
exactly the non-encodable (surrogate) code points, keeps every
encodable code point and their order, and never alters anything else;
for a ledger containing only encodable strings the round-trip is the
identity. -/
theorem saveLoadRoundTrip (d : JData) (s : PyStr) :
    (encodableData d = true → loadEnableJson (saveEnableJson d) = d)
    ∧ (∃ t, cleanJsonData (.str s) = .str t
        ∧ t.Sublist s
        ∧ (∀ c, isSurrogateCode c = false → (c ∈ t ↔ c ∈ s))
        ∧ (∀ c ∈ t, isSurrogateCode c = false)) := by
  constructor
  · intro h
    calc loadEnableJson (saveEnableJson d) = cleanJsonData d := rfl
      _ = d := cleanJsonData_encodable_id d h
  · refine ⟨s.filter (fun c => !(isSurrogateCode c)), by rw [cleanJsonData],
      List.filter_sublist s, ?_, ?_⟩
    · intro c hc
      simp [List.mem_filter, hc]
    · intro c hcmem
      have h2 := (List.mem_filter.mp hcmem).2
      simpa using h2

/-- A ledger value whose only string carries an unpaired surrogate
(code point 0xD800), for the C5 witness. -/
def c5Dirty : JData :=
  .dict (.cons (pyStrOfString "addons")
    (.arr (.cons (.str [97, 55296, 98]) .nil)) .nil)

/-- Witness for claim C5: the empty ledger round-trips identically, and
cleaning the surrogate-carrying string drops exactly the surrogate. -/
theorem saveLoadRoundTripWitness :
    loadEnableJson (saveEnableJson emptyLedgerJson) = emptyLedgerJson
    ∧ ∃ t, cleanJsonData (.str [97, 55296, 98]) = .str t
        ∧ t.Sublist [97, 55296, 98]
        ∧ (∀ c ∈ t, isSurrogateCode c = false) := by
  constructor
  · exact (saveLoadRoundTrip emptyLedgerJson []).1
      (by
        simp only [emptyLedgerJson, encodableData, encodableKVs, encodableJList,
          List.all_eq_true, Bool.and_eq_true]
        decide)
  · obtain ⟨t, h1, h2, _, h4⟩ := (saveLoadRoundTrip c5Dirty [97, 55296, 98]).2
    exact ⟨t, h1, h2, h4⟩

/-- An activation entry carries the id referenced by the behavior half
of a bundle ledger entry. -/
def matchesBehaviorRef (a : AddonRecord) (e : ActEntry) : Prop :=
  ∃ u, a.behavior_folder.isSome ∧ a.behavior_uuid = some u ∧ e.pack_id = some u

/-- An activation entry carries the id referenced by the resource half
of a bundle ledger entry. -/
def matchesResourceRef (a : AddonRecord) (e : ActEntry) : Prop :=
  ∃ u, a.resource_folder.isSome ∧ a.resource_uuid = some u ∧ e.pack_id = some u

theorem deactivate_mem (t : Option (List ActEntry)) (pid : String)
    (e : ActEntry) :
    e ∈ tableList (deactivate t pid) ↔
      e ∈ tableList t ∧ e.pack_id ≠ some pid := by
  cases t with
  | none => simp [deactivate, tableList]
  | some l => simp [deactivate, tableList, List.mem_filter]

theorem removeAddonCommit_addons (st : PluginState) (a : AddonRecord)
    (hmem : a ∈ st.addons) :
    (removeAddonCommit st a).addons = st.addons.erase a := by
  unfold removeAddonCommit
  rw [if_pos hmem]

theorem removeAddonCommit_behaviorTable (st : PluginState) (a : AddonRecord) :
    (removeAddonCommit st a).behaviorTable = st.behaviorTable := by
  unfold removeAddonCommit
  split <;> rfl

theorem removeAddonCommit_resourceTable (st : PluginState) (a : AddonRecord) :
    (removeAddonCommit st a).resourceTable = st.resourceTable := by
  unfold removeAddonCommit
  split <;> rfl

theorem removeAddon_spec (st : PluginState) (a : AddonRecord)
    (hwf : addonWF a) :
    (a ∈ st.addons → (removeAddon st a).addons = st.addons.erase a)
    ∧ (∀ e, e ∈ tableList (removeAddon st a).behaviorTable ↔
        e ∈ tableList st.behaviorTable ∧ ¬ matchesBehaviorRef a e)
    ∧ (∀ e, e ∈ tableList (removeAddon st a).resourceTable ↔
        e ∈ tableList st.resourceTable ∧ ¬ matchesResourceRef a e) := by
  obtain ⟨hwb, hwr⟩ := hwf
  have haddons : ∀ s : PluginState, a ∈ st.addons →
      s.addons = st.addons → (removeAddonCommit s a).addons = st.addons.erase a := by
    intro s hmem hs
    unfold removeAddonCommit
    rw [if_pos (hs ▸ hmem : a ∈ s.addons), hs]
  cases hbf : a.behavior_folder with
  | some bf =>
    obtain ⟨bu, hbu⟩ : ∃ u, a.behavior_uuid = some u := by
      rw [hbf] at hwb
      simp only [Option.isSome_some, true_iff] at hwb
      exact Option.isSome_iff_exists.mp hwb
    cases hrf : a.resource_folder with
    | some rf =>
      obtain ⟨ru, hru⟩ : ∃ u, a.resource_uuid = some u := by
        rw [hrf] at hwr
        simp only [Option.isSome_some, true_iff] at hwr
        exact Option.isSome_iff_exists.mp hwr
      refine ⟨fun hmem => ?_, fun e => ?_, fun e => ?_⟩
      · simp only [removeAddon, removeAddonResourcePart, hbf, hbu, hrf, hru]
        exact haddons _ hmem rfl
      · have hbt : (removeAddon st a).behaviorTable =
            deactivate st.behaviorTable bu := by
          simp only [removeAddon, removeAddonResourcePart, hbf, hbu, hrf, hru,
            removeAddonCommit_behaviorTable, deactivateResourcePack,
            deactivateBehaviorPack]
        rw [hbt, deactivate_mem]
        unfold matchesBehaviorRef
        simp [hbf, hbu]
      · have hrt : (removeAddon st a).resourceTable =
            deactivate st.resourceTable ru := by
          simp only [removeAddon, removeAddonResourcePart, hbf, hbu, hrf, hru,
            removeAddonCommit_resourceTable, deactivateResourcePack,
            deactivateBehaviorPack]
        rw [hrt, deactivate_mem]
        unfold matchesResourceRef
        simp [hrf, hru]
    | none =>
      refine ⟨fun hmem => ?_, fun e => ?_, fun e => ?_⟩
      · simp only [removeAddon, removeAddonResourcePart, hbf, hbu, hrf]
        exact haddons _ hmem rfl
      · have hbt : (removeAddon st a).behaviorTable =
            deactivate st.behaviorTable bu := by
          simp only [removeAddon, removeAddonResourcePart, hbf, hbu, hrf,
            removeAddonCommit_behaviorTable, deactivateBehaviorPack]
        rw [hbt, deactivate_mem]
        unfold matchesBehaviorRef
        simp [hbf, hbu]
      · have hrt : (removeAddon st a).resourceTable = st.resourceTable := by
          simp only [removeAddon, removeAddonResourcePart, hbf, hbu, hrf,
            removeAddonCommit_resourceTable, deactivateBehaviorPack]
        rw [hrt]
        unfold matchesResourceRef
        simp [hrf]
  | none =>
    have hbu : a.behavior_uuid = none := by
      cases hx : a.behavior_uuid with
      | none => rfl
      | some u =>
        rw [hbf, hx] at hwb
        simp at hwb
    cases hrf : a.resource_folder with
    | some rf =>
      obtain ⟨ru, hru⟩ : ∃ u, a.resource_uuid = some u := by
        rw [hrf] at hwr
        simp only [Option.isSome_some, true_iff] at hwr
        exact Option.isSome_iff_exists.mp hwr
      refine ⟨fun hmem => ?_, fun e => ?_, fun e => ?_⟩
      · simp only [removeAddon, removeAddonResourcePart, hbf, hrf, hru]
        exact haddons _ hmem rfl
      · have hbt : (removeAddon st a).behaviorTable = st.behaviorTable := by
          simp only [removeAddon, removeAddonResourcePart, hbf, hrf, hru,
            removeAddonCommit_behaviorTable, deactivateResourcePack]
        rw [hbt]
        unfold matchesBehaviorRef
        simp [hbf]
      · have hrt : (removeAddon st a).resourceTable =
            deactivate st.resourceTable ru := by
          simp only [removeAddon, removeAddonResourcePart, hbf, hrf, hru,
            removeAddonCommit_resourceTable, deactivateResourcePack]
        rw [hrt, deactivate_mem]
        unfold matchesResourceRef
        simp [hrf, hru]
    | none =>
      refine ⟨fun hmem => ?_, fun e => ?_, fun e => ?_⟩
      · simp only [removeAddon, removeAddonResourcePart, hbf, hrf]
        exact haddons _ hmem rfl
      · have hbt : (removeAddon st a).behaviorTable = st.behaviorTable := by
          simp only [removeAddon, removeAddonResourcePart, hbf, hrf,
            removeAddonCommit_behaviorTable]
        rw [hbt]
        unfold matchesBehaviorRef
        simp [hbf]
      · have hrt : (removeAddon st a).resourceTable = st.resourceTable := by
          simp only [removeAddon, removeAddonResourcePart, hbf, hrf,
            removeAddonCommit_resourceTable]
        rw [hrt]
        unfold matchesResourceRef
        simp [hrf]

theorem removePackCommit_behaviorTable (st : PluginState) (pk : PackRecord) :
    (removePackCommit st pk).behaviorTable = st.behaviorTable := by
  unfold removePackCommit
  split <;> rfl

theorem removePackCommit_resourceTable (st : PluginState) (pk : PackRecord) :
    (removePackCommit st pk).resourceTable = st.resourceTable := by
  unfold removePackCommit
  split <;> rfl

theorem removePack_spec (st : PluginState) (pk : PackRecord) :
    (pk ∈ st.packs → (removePack st pk).packs = st.packs.erase pk)
    ∧ (∀ e, e ∈ tableList (removePack st pk).behaviorTable ↔
        e ∈ tableList st.behaviorTable ∧
          ¬(pk.type = "behavior" ∧ e.pack_id = some pk.uuid))
    ∧ (∀ e, e ∈ tableList (removePack st pk).resourceTable ↔
        e ∈ tableList st.resourceTable ∧
          ¬(pk.type = "resource" ∧ e.pack_id = some pk.uuid)) := by
  have hpacks : ∀ s : PluginState, pk ∈ st.packs →
      s.packs = st.packs → (removePackCommit s pk).packs = st.packs.erase pk := by
    intro s hmem hs
    unfold removePackCommit
    rw [if_pos (hs ▸ hmem : pk ∈ s.packs), hs]
  by_cases hb : pk.type = "behavior"
  · have hred : removePack st pk = removePackCommit
        (deactivateBehaviorPack
          { st with behaviorDirs := st.behaviorDirs.erase pk.folder }
          pk.uuid) pk := by
      have hb' : (pk.type == "behavior") = true := by simp [hb]
      simp only [removePack, hb', if_true]
    refine ⟨fun hmem => ?_, fun e => ?_, fun e => ?_⟩
    · rw [hred]
      exact hpacks _ hmem rfl
    · have hbt : (removePack st pk).behaviorTable =
          deactivate st.behaviorTable pk.uuid := by
        rw [hred, removePackCommit_behaviorTable]
        rfl
      rw [hbt, deactivate_mem]
      simp [hb]
    · have hrt : (removePack st pk).resourceTable = st.resourceTable := by
        rw [hred, removePackCommit_resourceTable]
        rfl
      rw [hrt]
      simp [hb]
  · by_cases hr : pk.type = "resource"
    · have hred : removePack st pk = removePackCommit
          (deactivateResourcePack
            { st with resourceDirs := st.resourceDirs.erase pk.folder }
            pk.uuid) pk := by
        have hb' : (pk.type == "behavior") = false := by simp [hb]
        have hr' : (pk.type == "resource") = true := by simp [hr]
        simp only [removePack, hb', hr', Bool.false_eq_true, if_false, if_true]
      refine ⟨fun hmem => ?_, fun e => ?_, fun e => ?_⟩
      · rw [hred]
        exact hpacks _ hmem rfl
      · have hbt : (removePack st pk).behaviorTable = st.behaviorTable := by
          rw [hred, removePackCommit_behaviorTable]
          rfl
        rw [hbt]
        simp [hb]
      · have hrt : (removePack st pk).resourceTable =
            deactivate st.resourceTable pk.uuid := by
          rw [hred, removePackCommit_resourceTable]
          rfl
        rw [hrt, deactivate_mem]
        simp [hr]
    · have hred : removePack st pk = removePackCommit st pk := by
        have hb' : (pk.type == "behavior") = false := by simp [hb]
        have hr' : (pk.type == "resource") = false := by simp [hr]
        simp only [removePack, hb', hr', Bool.false_eq_true, if_false]
      refine ⟨fun hmem => ?_, fun e => ?_, fun e => ?_⟩
      · rw [hred]
        exact hpacks _ hmem rfl
      · rw [hred, removePackCommit_behaviorTable]
        simp [hb]
      · rw [hred, removePackCommit_resourceTable]
        simp [hr]

/-- Claim C2: for each ledger sequence and each operator-supplied index
string, a valid 1-based index removes exactly one entry from that
sequence (length drops by one) and filters from each activation table
exactly the entries whose id the removed ledger entry references for
that table; a non-numeric index, or one that is zero, negative or
beyond the length, leaves the full state unchanged and reports a user
error.  Bundle entries are assumed well formed (the data model's
folder-iff-id invariant, which the pipeline maintains). -/
theorem removeByIndexSpec (st : PluginState) (s : String) :
    ((∀ x ∈ st.addons, addonWF x) → ∀ n a, pyInt s = some n → 1 ≤ n →
      n ≤ (st.addons.length : Int) → st.addons[(n - 1).toNat]? = some a →
        (handleDeleAddon st [s]).1.addons.length + 1 = st.addons.length
        ∧ (∀ e, e ∈ tableList (handleDeleAddon st [s]).1.behaviorTable ↔
            e ∈ tableList st.behaviorTable ∧ ¬ matchesBehaviorRef a e)
        ∧ (∀ e, e ∈ tableList (handleDeleAddon st [s]).1.resourceTable ↔
            e ∈ tableList st.resourceTable ∧ ¬ matchesResourceRef a e))
    ∧ (pyInt s = none → handleDeleAddon st [s] = (st, "§c请输入有效的数字序号"))
    ∧ (∀ n, pyInt s = some n → (n < 1 ∨ (st.addons.length : Int) < n) →
        handleDeleAddon st [s] = (st, "§c序号无效"))
    ∧ (∀ n pk, pyInt s = some n → 1 ≤ n → n ≤ (st.packs.length : Int) →
        st.packs[(n - 1).toNat]? = some pk →
        (handleDelePack st [s]).1.packs.length + 1 = st.packs.length
        ∧ (∀ e, e ∈ tableList (handleDelePack st [s]).1.behaviorTable ↔
            e ∈ tableList st.behaviorTable ∧
              ¬(pk.type = "behavior" ∧ e.pack_id = some pk.uuid))
        ∧ (∀ e, e ∈ tableList (handleDelePack st [s]).1.resourceTable ↔
            e ∈ tableList st.resourceTable ∧
              ¬(pk.type = "resource" ∧ e.pack_id = some pk.uuid)))
    ∧ (pyInt s = none → handleDelePack st [s] = (st, "§c请输入有效的数字序号"))
    ∧ (∀ n, pyInt s = some n → (n < 1 ∨ (st.packs.length : Int) < n) →
        handleDelePack st [s] = (st, "§c序号无效")) := by
  refine ⟨?_, ?_, ?_, ?_, ?_, ?_⟩
  · intro hwfall n a hpy h1 h2 ha
    have hred : handleDeleAddon st [s] =
        (removeAddon st a, "§a成功删除addon: " ++ a.name) := by
      simp only [handleDeleAddon, hpy]
      rw [if_pos ⟨by omega, by omega⟩, ha]
    have hmem : a ∈ st.addons := List.getElem?_mem ha
    have hspec := removeAddon_spec st a (hwfall a hmem)
    refine ⟨?_, ?_, ?_⟩
    · rw [hred]
      show (removeAddon st a).addons.length + 1 = st.addons.length
      rw [hspec.1 hmem, List.length_erase_of_mem hmem]
      have := List.length_pos_of_mem hmem
      omega
    · intro e
      rw [hred]
      exact hspec.2.1 e
    · intro e
      rw [hred]
      exact hspec.2.2 e
  · intro hpy
    simp only [handleDeleAddon, hpy]
  · intro n hpy hbad
    simp only [handleDeleAddon, hpy]
    rw [if_neg (by rintro ⟨hc1, hc2⟩; omega)]
  · intro n pk hpy h1 h2 ha
    have hred : handleDelePack st [s] =
        (removePack st pk, "§a成功删除pack: " ++ pk.name) := by
      simp only [handleDelePack, hpy]
      rw [if_pos ⟨by omega, by omega⟩, ha]
    have hmem : pk ∈ st.packs := List.getElem?_mem ha
    have hspec := removePack_spec st pk
    refine ⟨?_, ?_, ?_⟩
    · rw [hred]
      show (removePack st pk).packs.length + 1 = st.packs.length
      rw [hspec.1 hmem, List.length_erase_of_mem hmem]
      have := List.length_pos_of_mem hmem
      omega
    · intro e
      rw [hred]
      exact hspec.2.1 e
    · intro e
      rw [hred]
      exact hspec.2.2 e
  · intro hpy
    simp only [handleDelePack, hpy]
  · intro n hpy hbad
    simp only [handleDelePack, hpy]
    rw [if_neg (by rintro ⟨hc1, hc2⟩; omega)]

/-- A well-formed bundle entry for the C2 witness. -/
def c2Addon : AddonRecord :=
  { name := "A", type := "addon"
    behavior_folder := some "bf", behavior_uuid := some "bu"
    resource_folder := none, resource_uuid := none }

/-- A resource pack entry for the C2 witness. -/
def c2PackRec : PackRecord :=
  { name := "P", folder := "pf", uuid := "pu", type := "resource" }

/-- Concrete state with one bundle and one pack installed, for C2. -/
def c2State : PluginState :=
  { stagingAddons := [], stagingPacks := []
    addons := [c2Addon], packs := [c2PackRec]
    behaviorTable := some [{ pack_id := some "bu", version := [1, 0, 0] },
      { pack_id := some "z", version := [1, 0, 0] }]
    resourceTable := some [{ pack_id := some "pu", version := [1, 0, 0] }]
    behaviorDirs := ["bf"], resourceDirs := ["pf"], scratchDirs := []
    ledgerSaves := 0, notices := 0, helperDirExists := true }

/-- Witness for claim C2 at concrete indices: a valid index shrinks the
sequence by one, an out-of-range or non-numeric index is rejected
without touching the state. -/
theorem removeByIndexSpecWitness :
    (handleDeleAddon c2State ["1"]).1.addons.length + 1 = c2State.addons.length
    ∧ handleDeleAddon c2State ["2"] = (c2State, "§c序号无效")
    ∧ handleDelePack c2State ["x"] = (c2State, "§c请输入有效的数字序号")
    ∧ (handleDelePack c2State ["1"]).1.packs.length + 1 = c2State.packs.length := by
  refine ⟨?_, ?_, ?_, ?_⟩
  · exact ((removeByIndexSpec c2State "1").1 (by decide) 1 c2Addon
      (by decide) (by decide) (by decide) (by decide)).1
  · exact (removeByIndexSpec c2State "2").2.2.1 2 (by decide) (by decide)
  · exact (removeByIndexSpec c2State "x").2.2.2.2.1 (by decide)
  · exact ((removeByIndexSpec c2State "1").2.2.2.1 1 c2PackRec
      (by decide) (by decide) (by decide) (by decide)).1

end AddonsHelper